import Mathlib

/-!
Verification development for the phishing-email-detection-system repository.

The repository's backend (FastAPI: `app.py`, `cache.py`, `middleware.py`,
`database.py`) is not present in the source tree available here; only the
Next.js/React frontend and the README are.  Backend components
(ClassificationEngine, RateLimiter, CacheManager, PersistenceManager,
PredictionOrchestrator, AttachmentAnalyzer) are therefore modelled from the
specification's own words (each such definition carries a doc comment starting
`Modelled from the spec:`).  Frontend functions are shallowly embedded from the
TypeScript/JavaScript sources under `src/frontend` and `src/unnamed`.

Machine reals (JS numbers, Python floats) are modelled as rationals `ℚ`;
instants as natural-number timestamps; byte strings as `List Nat` with each
element `< 256`.
-/

/-! ### Frontend data model (`frontend/lib/types.ts`) -/

/-- `AttachmentInfo` wire shape from `frontend/lib/types.ts`. -/
structure AttachmentInfo where
  filename : String
  content_type : String
  size : Nat
  sha256 : String
  malicious_score : ℚ
deriving Repr, DecidableEq

/-- `Report` from `frontend/lib/types.ts`.  `prediction` is typed
`"spam" | "ham"` in TypeScript; here it is a `String` and theorems carry the
membership hypothesis where it matters. -/
structure FReport where
  mongoId : String
  subject : String
  body : String
  prediction : String
  confidence : ℚ
  spam_probability : ℚ
  ham_probability : ℚ
  timestamp : String
  attachments_info : List AttachmentInfo
deriving Repr, DecidableEq

/-- `ReportsResponse` from `frontend/lib/types.ts` (`total` is a JS number;
the normalization code can propagate any backend-supplied value, so it is
modelled as `Int`). -/
structure ReportsResponse where
  total : Int
  reports : List FReport
deriving Repr, DecidableEq

/-! ### Frontend API client (`frontend/src/services/api.js`) -/

/-- A JavaScript argument as observed by `validatePredictionInput`: either a
string or a non-string value of which only truthiness matters
(`undefined`/`null` are `nonStr false`). -/
inductive JsArg where
  | str (s : String)
  | nonStr (truthy : Bool)
deriving Repr, DecidableEq

/-- JS falsiness of a `JsArg` (`!x`): the empty string and falsy non-strings. -/
def jsFalsy : JsArg → Bool
  | .str s => s = ""
  | .nonStr t => !t

/-- `typeof x === "string"` for a `JsArg`. -/
def jsIsString : JsArg → Bool
  | .str _ => true
  | .nonStr _ => false

/-- JS `String.prototype.trim()`: strip leading and trailing whitespace
(modelled over the character list with `Char.isWhitespace`). -/
def jsTrim (s : String) : String :=
  String.mk (((s.data.dropWhile Char.isWhitespace).reverse.dropWhile
    Char.isWhitespace).reverse)

/-- `!x.trim()` — only ever evaluated by the code on strings; on a non-string
the short-circuit `||` has already fired, so the value here is irrelevant and
chosen `true`. -/
def jsTrimFalsy : JsArg → Bool
  | .str s => jsTrim s = ""
  | .nonStr _ => true

/-- The failure condition of one argument check in `validatePredictionInput`
(`api.js` lines 24–33): `!x || typeof x !== "string" || !x.trim()`. -/
def argCheckFails (a : JsArg) : Bool :=
  jsFalsy a || !jsIsString a || jsTrimFalsy a

/-- `validatePredictionInput(subject, body)` from `api.js` lines 24–33:
throws (here: `Except.error`) with the source's messages. -/
def validatePredictionInput (subject body : JsArg) : Except String Unit :=
  if argCheckFails subject then
    .error "Validation Error: Subject is required and must be a string."
  else if argCheckFails body then
    .error "Validation Error: Body content is required."
  else
    .ok ()

/-- An element of the `files` array passed to `predictEmail`: either an actual
`File` (with a name and raw bytes) or any other JS value. -/
inductive FileArg where
  | file (name : String) (bytes : List Nat)
  | notFile
deriving Repr, DecidableEq

/-- One entry appended to the outgoing `FormData`. -/
inductive FormEntry where
  | field (key value : String)
  | filePart (key name : String) (bytes : List Nat)
deriving Repr, DecidableEq

/-- The `instanceof File` guard in `predictEmail` (`api.js` lines 67–72):
non-`File` values are silently skipped. -/
def keepFile : FileArg → Option FormEntry
  | .file n b => some (.filePart "files" n b)
  | .notFile => none

/-- `predictEmail(subject, body, files)` from `api.js` lines 55–80, up to the
point the HTTP request is issued: validation happens first (fail fast, no
request on error); on success, the multipart body holds `subject.trim()`,
`body.trim()` and each element of `files` that is a `File` instance, in
order. -/
def predictEmail (subject body : JsArg) (files : List FileArg) :
    Except String (List FormEntry) := do
  let _ ← validatePredictionInput subject body
  let base := [FormEntry.field "subject" (jsTrim (match subject with
                | .str s => s
                | .nonStr _ => "")),
               FormEntry.field "body" (jsTrim (match body with
                | .str s => s
                | .nonStr _ => ""))]
  .ok (base ++ files.filterMap keepFile)

/-! ### Reports-page response normalization
(`frontend/app/reports/[id]/page.tsx` lines 39–60 and
`frontend/app/reports/page.tsx` lines 221–239, textually the same logic) -/

/-- The JS value found in a response object's `reports` field: an array of
reports, or any other value of which only truthiness matters. -/
inductive ReportsField where
  | rfArr (rs : List FReport)
  | rfOther (truthy : Bool)
deriving Repr, DecidableEq

/-- JS truthiness of a `reports` field value (arrays, even empty, are truthy). -/
def rfTruthy : ReportsField → Bool
  | .rfArr _ => true
  | .rfOther t => t

/-- `Array.isArray` on a `reports` field value. -/
def rfIsArray : ReportsField → Bool
  | .rfArr _ => true
  | .rfOther _ => false

/-- A parsed `GET /reports` response body: a plain JSON array, or an object
with optional `reports` and `total` fields (a numeric-or-absent `total`
suffices: the backend contract types it as a number). -/
inductive ApiResp where
  | arr (rs : List FReport)
  | obj (reports : Option ReportsField) (total : Option Int)
deriving Repr, DecidableEq

/-- JS `a || b` where `a` is the optional numeric `total` field: falsy exactly
when absent or `0`. -/
def jsOrTotal (t : Option Int) (d : Int) : Int :=
  match t with
  | some v => if v = 0 then d else v
  | none => d

/-- The response-shape normalization shared by `getReports`
(`app/reports/[id]/page.tsx` lines 42–57) and `ReportsContent`
(`app/reports/page.tsx` lines 226–239):
`Array.isArray(data)` → wrap; `data.reports && Array.isArray(data.reports)` →
`{total: data.total || data.reports.length, reports: data.reports}`;
otherwise throw `"Unexpected API response format"`. -/
def normalizeReports : ApiResp → Except String ReportsResponse
  | .arr rs => .ok ⟨(rs.length : Int), rs⟩
  | .obj rf tot =>
    match rf with
    | some v =>
      if rfTruthy v && rfIsArray v then
        match v with
        | .rfArr rs => .ok ⟨jsOrTotal tot (rs.length : Int), rs⟩
        | .rfOther _ => .error "Unexpected API response format"
      else .error "Unexpected API response format"
    | none => .error "Unexpected API response format"

/-! ### Confidence distribution chart (`src/unnamed/part_002`,
`ConfidenceDistributionChart`, lines 32–57) -/

/-- One bucket of the chart's `buckets` array (line 33–39). -/
structure Bucket where
  range : String
  bmin : ℚ
  bmax : ℚ
deriving Repr, DecidableEq

/-- The five confidence buckets, as written at `part_002` lines 33–39. -/
def chartBuckets : List Bucket :=
  [⟨"50-60%", 1/2, 3/5⟩,
   ⟨"60-70%", 3/5, 7/10⟩,
   ⟨"70-80%", 7/10, 4/5⟩,
   ⟨"80-90%", 4/5, 9/10⟩,
   ⟨"90-100%", 9/10, 1⟩]

/-- `conf` as computed per report inside both filters (lines 43 and 48):
the winning class's probability. -/
def winConf (r : FReport) : ℚ :=
  if r.prediction = "spam" then r.spam_probability else r.ham_probability

/-- The spam-series filter of a bucket (lines 42–45). -/
def spamInBucket (b : Bucket) (r : FReport) : Bool :=
  r.prediction = "spam" && decide (b.bmin ≤ winConf r) && decide (winConf r < b.bmax)

/-- The ham-series filter of a bucket (lines 47–50). -/
def hamInBucket (b : Bucket) (r : FReport) : Bool :=
  r.prediction = "ham" && decide (b.bmin ≤ winConf r) && decide (winConf r < b.bmax)

/-- A report is counted in a bucket when it passes either series' filter. -/
def countedIn (r : FReport) (b : Bucket) : Bool :=
  spamInBucket b r || hamInBucket b r

/-- One row of `chartData` (lines 41–57). -/
structure ChartRow where
  range : String
  spam : Nat
  ham : Nat
deriving Repr, DecidableEq

/-- `chartData` from `part_002` lines 41–57: per bucket, the number of spam
reports and of ham reports whose winning confidence lies in `[min, max)`. -/
def chartData (reports : List FReport) : List ChartRow :=
  chartBuckets.map fun b =>
    ⟨b.range, (reports.filter (spamInBucket b)).length,
      (reports.filter (hamInBucket b)).length⟩

/-! ### SHA-256 (backend attachment fingerprint)

The backend's `AttachmentAnalyzer` is not in the available source tree.  The
spec and README fix the hash: "SHA256 cryptographic hashing for attachment
fingerprinting", "a cryptographic content hash (fixed-size digest,
hex-encoded) over the raw byte content".  The full FIPS 180-4 SHA-256 is
implemented here over byte lists (`List Nat`, each element < 256); it is
validated below against the standard test vectors for `"abc"` and the empty
message. -/

/-- Addition modulo `2^32`. -/
def add32 (x y : Nat) : Nat := (x + y) % 4294967296

/-- 32-bit right rotation by `n` of a value `x < 2^32`. -/
def rotr32 (n x : Nat) : Nat := x / 2 ^ n + x % 2 ^ n * 2 ^ (32 - n)

/-- 32-bit logical right shift. -/
def shr32 (n x : Nat) : Nat := x / 2 ^ n

/-- SHA-256 `Ch(e,f,g)`. -/
def chf (e f g : Nat) : Nat := (e &&& f) ^^^ ((e ^^^ 4294967295) &&& g)

/-- SHA-256 `Maj(a,b,c)`. -/
def majf (a b c : Nat) : Nat := (a &&& b) ^^^ (a &&& c) ^^^ (b &&& c)

/-- SHA-256 `Σ₀`. -/
def bsig0 (x : Nat) : Nat := rotr32 2 x ^^^ rotr32 13 x ^^^ rotr32 22 x

/-- SHA-256 `Σ₁`. -/
def bsig1 (x : Nat) : Nat := rotr32 6 x ^^^ rotr32 11 x ^^^ rotr32 25 x

/-- SHA-256 `σ₀`. -/
def ssig0 (x : Nat) : Nat := rotr32 7 x ^^^ rotr32 18 x ^^^ shr32 3 x

/-- SHA-256 `σ₁`. -/
def ssig1 (x : Nat) : Nat := rotr32 17 x ^^^ rotr32 19 x ^^^ shr32 10 x

/-- The 64 SHA-256 round constants. -/
def K256 : List Nat :=
  [1116352408, 1899447441, 3049323471, 3921009573, 961987163,
   1508970993, 2453635748, 2870763221, 3624381080, 310598401,
   607225278, 1426881987, 1925078388, 2162078206, 2614888103,
   3248222580, 3835390401, 4022224774, 264347078, 604807628,
   770255983, 1249150122, 1555081692, 1996064986, 2554220882,
   2821834349, 2952996808, 3210313671, 3336571891, 3584528711,
   113926993, 338241895, 666307205, 773529912, 1294757372,
   1396182291, 1695183700, 1986661051, 2177026350, 2456956037,
   2730485921, 2820302411, 3259730800, 3345764771, 3516065817,
   3600352804, 4094571909, 275423344, 430227734, 506948616,
   659060556, 883997877, 958139571, 1322822218, 1537002063,
   1747873779, 1955562222, 2024104815, 2227730452, 2361852424,
   2428436474, 2756734187, 3204031479, 3329325298]

/-- `k` big-endian bytes of `v`. -/
def beBytes : Nat → Nat → List Nat
  | 0, _ => []
  | k + 1, v => beBytes k (v / 256) ++ [v % 256]

/-- SHA-256 message padding: `0x80`, zeros to 56 mod 64, 64-bit bit length. -/
def sha256pad (msg : List Nat) : List Nat :=
  msg ++ [128] ++ List.replicate ((119 - msg.length % 64) % 64) 0
    ++ beBytes 8 (msg.length * 8)

/-- Big-endian 4-byte groups to 32-bit words. -/
def toWords : List Nat → List Nat
  | b0 :: b1 :: b2 :: b3 :: rest =>
    (((b0 * 256 + b1) * 256 + b2) * 256 + b3) :: toWords rest
  | _ => []

/-- Split a word list into 16-word blocks (padded input is always a multiple
of 16 words, so the final catch-all is never hit on real inputs). -/
def chunks16 : List Nat → List (List Nat)
  | w0 :: w1 :: w2 :: w3 :: w4 :: w5 :: w6 :: w7 ::
    w8 :: w9 :: w10 :: w11 :: w12 :: w13 :: w14 :: w15 :: rest =>
    [w0, w1, w2, w3, w4, w5, w6, w7, w8, w9, w10, w11, w12, w13, w14, w15]
      :: chunks16 rest
  | [] => []
  | l => [l]

/-- Message-schedule extension, working on the reversed word list so that
`W[t-2], W[t-7], W[t-15], W[t-16]` are positions 1, 6, 14, 15. -/
def extendW : List Nat → Nat → List Nat
  | acc, 0 => acc
  | acc, k + 1 =>
    extendW (add32 (add32 (ssig1 (acc.getD 1 0)) (acc.getD 6 0))
      (add32 (ssig0 (acc.getD 14 0)) (acc.getD 15 0)) :: acc) k

/-- The eight SHA-256 working variables / hash state words. -/
structure H8 where
  a : Nat
  b : Nat
  c : Nat
  d : Nat
  e : Nat
  f : Nat
  g : Nat
  h : Nat
deriving Repr, DecidableEq

/-- SHA-256 initial hash value. -/
def sha256IV : H8 :=
  ⟨1779033703, 3144134277, 1013904242, 2773480762,
   1359893119, 2600822924, 528734635, 1541459225⟩

/-- One SHA-256 compression round. -/
def compressRound (s : H8) (k w : Nat) : H8 :=
  let t1 := add32 s.h (add32 (bsig1 s.e) (add32 (chf s.e s.f s.g) (add32 k w)))
  let t2 := add32 (bsig0 s.a) (majf s.a s.b s.c)
  ⟨add32 t1 t2, s.a, s.b, s.c, add32 s.d t1, s.e, s.f, s.g⟩

/-- SHA-256 block compression: 64 rounds plus Davies–Meyer feed-forward. -/
def compressBlock (h : H8) (ws : List Nat) : H8 :=
  let w64 := (extendW ws.reverse 48).reverse
  let s := (K256.zip w64).foldl (fun s kw => compressRound s kw.1 kw.2) h
  ⟨add32 h.a s.a, add32 h.b s.b, add32 h.c s.c, add32 h.d s.d,
   add32 h.e s.e, add32 h.f s.f, add32 h.g s.g, add32 h.h s.h⟩

/-- SHA-256 digest of a byte list, as eight 32-bit words. -/
def sha256words (bytes : List Nat) : List Nat :=
  let hf := (chunks16 (toWords (sha256pad bytes))).foldl compressBlock sha256IV
  [hf.a, hf.b, hf.c, hf.d, hf.e, hf.f, hf.g, hf.h]

/-- Lowercase hex digit. -/
def hexDigit : Nat → Char
  | 0 => '0'
  | 1 => '1'
  | 2 => '2'
  | 3 => '3'
  | 4 => '4'
  | 5 => '5'
  | 6 => '6'
  | 7 => '7'
  | 8 => '8'
  | 9 => '9'
  | 10 => 'a'
  | 11 => 'b'
  | 12 => 'c'
  | 13 => 'd'
  | 14 => 'e'
  | _ => 'f'

/-- A 32-bit word as 8 lowercase hex characters. -/
def word8hex (x : Nat) : String :=
  String.mk ((List.range 8).map fun i => hexDigit (x / 16 ^ (7 - i) % 16))

/-- Modelled from the spec: the backend's attachment content fingerprint
("SHA256 cryptographic hashing", hex-encoded digest of the raw bytes); the
backend source (`app.py`) is not in the available tree.  Full FIPS 180-4
SHA-256, 64-character lowercase hex output. -/
def sha256hex (bytes : List Nat) : String :=
  String.join ((sha256words bytes).map word8hex)

/-- FIPS 180-4 test vector: `SHA-256("abc")`. -/
theorem sha256hex_abc :
    sha256hex [97, 98, 99] =
      "ba7816bf8f01cfea414140de5dae2223b00361a396177a9cb410ff61f20015ad" := by
  decide

/-- FIPS 180-4 test vector: `SHA-256("")`. -/
theorem sha256hex_empty :
    sha256hex [] =
      "e3b0c44298fc1c149afbf4c8996fb92427ae41e4649b934ca495991b7852b855" := by
  decide

/-! ### RateLimiter (spec §4.1; backend `middleware.py` not in the tree) -/

/-- Rate-limiter configuration (`RATE_LIMIT_REQUESTS`, `RATE_LIMIT_WINDOW`). -/
structure RLConfig where
  max_requests : Nat
  window_duration : Nat
deriving Repr, DecidableEq

/-- `RateLimitCounter` from spec §3: per-client count and window start. -/
structure RateLimitCounter where
  count : Nat
  window_start : Nat
deriving Repr, DecidableEq

/-- The two outcomes of an admission check. -/
inductive RLDecision where
  | Allowed
  | Rejected
deriving Repr, DecidableEq

/-- Modelled from the spec (§4.1, backend `middleware.py` missing): one
admission check for a single client key.  "If no counter exists or the window
has elapsed (now − window_start ≥ window_duration), create/reset the counter
with count=1, window_start=now, return Allowed.  Otherwise increment count; if
count > configured max_requests, return Rejected; else return Allowed." -/
def rateLimitStep (cfg : RLConfig) (now : Nat) :
    Option RateLimitCounter → RLDecision × RateLimitCounter
  | none => (.Allowed, ⟨1, now⟩)
  | some c =>
    if cfg.window_duration ≤ now - c.window_start then (.Allowed, ⟨1, now⟩)
    else
      let cnt := c.count + 1
      (if cfg.max_requests < cnt then .Rejected else .Allowed, ⟨cnt, c.window_start⟩)

/-- A sequence of admission checks for one client key at the given instants. -/
def rateLimitRun (cfg : RLConfig) :
    List Nat → Option RateLimitCounter → List RLDecision × Option RateLimitCounter
  | [], st => ([], st)
  | t :: ts, st =>
    let step := rateLimitStep cfg t st
    let rest := rateLimitRun cfg ts (some step.2)
    (step.1 :: rest.1, rest.2)

/-! ### CacheManager (spec §4.5; backend `cache.py` not in the tree) -/

/-- `CacheEntry` from spec §3: value plus absolute expiry instant. -/
structure CacheEntry (α : Type) where
  value : α
  expires_at : Nat
deriving Repr, DecidableEq

/-- The cache's key-to-entry map, as an association list over string keys. -/
abbrev CacheMap (α : Type) : Type := List (String × CacheEntry α)

/-- Raw lookup of a key's entry, ignoring expiry. -/
def cacheLookup (k : String) (c : CacheMap α) : Option (CacheEntry α) :=
  match c.find? (fun p => p.1 = k) with
  | some p => some p.2
  | none => none

/-- Remove a key's entry (also `invalidate(key)` from spec §4.5). -/
def cacheRemove (k : String) (c : CacheMap α) : CacheMap α :=
  c.filter (fun p => ¬(p.1 = k))

/-- Modelled from the spec (§4.5, backend `cache.py` missing):
`set(key, value, ttl)` stores the value with `expires_at = now + ttl`. -/
def cacheSet (k : String) (v : α) (ttl now : Nat) (c : CacheMap α) : CacheMap α :=
  (k, ⟨v, now + ttl⟩) :: cacheRemove k c

/-- Modelled from the spec (§4.5, backend `cache.py` missing):
`get(key) -> Value | Miss` with lazy eviction — "if a found entry's
expires_at has passed, treat as Miss and remove it".  Returns the hit value
(or `none`) together with the possibly-pruned map. -/
def cacheGet (now : Nat) (k : String) (c : CacheMap α) : Option α × CacheMap α :=
  match cacheLookup k c with
  | none => (none, c)
  | some e => if e.expires_at ≤ now then (none, cacheRemove k c) else (some e.value, c)

/-! ### ClassificationEngine (spec §4.3; backend `app.py` not in the tree) -/

/-- Modelled from the spec (§4.3): the loaded vectorizer+classifier pair,
abstracted as the calibrated spam-class probability it assigns to the
concatenated subject and body.  Immutable after load. -/
structure ClassificationEngine where
  spamProb : String → String → ℚ

/-- The artifacts produce probabilities: `spamProb` always lies in `[0, 1]`. -/
def engineValid (eng : ClassificationEngine) : Prop :=
  ∀ s b, 0 ≤ eng.spamProb s b ∧ eng.spamProb s b ≤ 1

/-- The classification outcome: the probability pair, the label, and the
winning class's probability. -/
structure ClassifyResult where
  spam_probability : ℚ
  ham_probability : ℚ
  label : String
  confidence : ℚ
deriving Repr, DecidableEq

/-- Modelled from the spec (§4.3, backend `app.py` missing):
`classify(subject, body)` — calibrated binary class probabilities (the pair
sums to 1), `label = "spam" if spam_probability ≥ 0.5 else "ham"`,
`confidence = the winning class's probability`. -/
def classify (eng : ClassificationEngine) (subject body : String) : ClassifyResult :=
  let p := eng.spamProb subject body
  ⟨p, 1 - p, if 1 / 2 ≤ p then "spam" else "ham", max p (1 - p)⟩

/-! ### AttachmentAnalyzer (spec §4.4; backend `app.py` not in the tree) -/

/-- `AttachmentRecord` from spec §3 (same fields as the `AttachmentInfo`
wire shape). -/
structure AttachmentRecord where
  filename : String
  content_type : String
  size : Nat
  sha256 : String
  malicious_score : ℚ
deriving Repr, DecidableEq

/-- Modelled from the spec (§4.4): resolve the declared MIME type, "falling
back to a sniffed/default value when absent" (§3 allows `"unknown"`). -/
def resolveContentType (ct : String) : String :=
  if ct = "" then "unknown" else ct

/-- Modelled from the spec (§4.4, backend `app.py` missing):
`analyze(filename, content_type, bytes) -> AttachmentRecord`.  The sha256 is
the hex digest of the raw byte content only; size is the byte length; the
malicious score comes from the reputation collaborator `rep`, called once on
the content hash. -/
def analyze (rep : String → ℚ) (filename content_type : String)
    (bytes : List Nat) : AttachmentRecord :=
  let hash := sha256hex bytes
  ⟨filename, resolveContentType content_type, bytes.length, hash, rep hash⟩

/-! ### PredictionRecord, PersistenceManager, PredictionOrchestrator
(spec §3, §4.6, §4.7; backend `app.py` / `database.py` not in the tree) -/

/-- `PredictionRecord` from spec §3: the durable unit of work. -/
structure PredictionRecord where
  id : Nat
  subject : String
  body : String
  prediction : String
  confidence : ℚ
  spam_probability : ℚ
  ham_probability : ℚ
  timestamp : Nat
  attachments : List AttachmentRecord
deriving Repr, DecidableEq

/-- One declared attachment of an `EmailSubmission` (spec §3): filename,
declared content type, raw bytes. -/
structure RawAttachment where
  filename : String
  content_type : String
  bytes : List Nat
deriving Repr, DecidableEq

/-- `EmailSubmission` from spec §3 (transient, request-scoped). -/
structure EmailSubmission where
  subject : String
  body : String
  attachments : List RawAttachment
deriving Repr, DecidableEq

/-- The error taxonomy of spec §7. -/
inductive SubmitError where
  | ValidationError
  | RateLimited
  | ModelUnavailable
  | PersistenceUnavailable
  | NotFound
deriving Repr, DecidableEq

/-- The HTTP status each error surfaces as (spec §6/§7). -/
def statusOf : SubmitError → Nat
  | .ValidationError => 422
  | .RateLimited => 429
  | .ModelUnavailable => 503
  | .PersistenceUnavailable => 503
  | .NotFound => 404

/-- What the cache holds (spec §3: "value (serialized list or single
record)"). -/
inductive CacheVal where
  | listVal (rs : List PredictionRecord)
  | singleVal (r : PredictionRecord)
deriving Repr, DecidableEq

/-- The backend's shared state: the document store's prediction collection
(in insertion order; the store assigns ids) and the cache map. -/
structure SysState where
  store : List PredictionRecord
  cache : CacheMap CacheVal
deriving DecidableEq

/-- The fixed list-view cache key (spec §3: "a fixed all-reports key"). -/
def listKey : String := "all-reports"

/-- The per-identifier cache key (spec §3: "a per-identifier key"). -/
def idKey (i : Nat) : String := "report:" ++ toString i

/-- Modelled from the spec (§4.7, backend `app.py` missing):
`submit(EmailSubmission) -> PredictionRecord`.  Validate (subject and body
non-empty) → classify → analyze each attachment in order → assemble the
record with the current timestamp and store-assigned id →
`PersistenceManager.insert` (fails with `PersistenceUnavailable` when the
pool yields no connection, modelled by `avail`) →
`CacheManager.invalidate(list-key)` → return the record. -/
def submit (eng : ClassificationEngine) (rep : String → ℚ) (avail : Bool)
    (now : Nat) (sub : EmailSubmission) (sys : SysState) :
    Except SubmitError (PredictionRecord × SysState) :=
  if sub.subject = "" ∨ sub.body = "" then .error .ValidationError
  else
    let c := classify eng sub.subject sub.body
    let atts := sub.attachments.map fun a => analyze rep a.filename a.content_type a.bytes
    let r : PredictionRecord :=
      ⟨sys.store.length, sub.subject, sub.body, c.label, c.confidence,
        c.spam_probability, c.ham_probability, now, atts⟩
    if avail then
      .ok (r, ⟨sys.store ++ [r], cacheRemove listKey sys.cache⟩)
    else .error .PersistenceUnavailable

/-- Modelled from the spec (§2/§4.5/§4.6, backend `app.py` missing): the
`GET /reports` read path — cache hit returns immediately; on miss the store
is queried (most recent first) and the list cache is populated with the
reports TTL. -/
def listReports (now ttl : Nat) (sys : SysState) :
    List PredictionRecord × SysState :=
  match cacheGet now listKey sys.cache with
  | (some (.listVal v), c) => (v, ⟨sys.store, c⟩)
  | (some (.singleVal _), c) =>
    (sys.store.reverse, ⟨sys.store, cacheSet listKey (.listVal sys.store.reverse) ttl now c⟩)
  | (none, c) =>
    (sys.store.reverse, ⟨sys.store, cacheSet listKey (.listVal sys.store.reverse) ttl now c⟩)

/-- Modelled from the spec (§4.5/§4.6, backend `app.py` missing): the
`GET /report?id=` read path — per-identifier cache entries are populated
lazily on first read; `NotFound` for an unknown identifier. -/
def getReport (now ttl i : Nat) (sys : SysState) :
    Except SubmitError (PredictionRecord × SysState) :=
  match cacheGet now (idKey i) sys.cache with
  | (some (.singleVal r), c) => .ok (r, ⟨sys.store, c⟩)
  | (some (.listVal _), c) =>
    match sys.store.find? (fun r => r.id = i) with
    | some r => .ok (r, ⟨sys.store, cacheSet (idKey i) (.singleVal r) ttl now c⟩)
    | none => .error .NotFound
  | (none, c) =>
    match sys.store.find? (fun r => r.id = i) with
    | some r => .ok (r, ⟨sys.store, cacheSet (idKey i) (.singleVal r) ttl now c⟩)
    | none => .error .NotFound

/-- One externally triggered backend operation (the system's only state
transitions, spec §2). -/
inductive SysOp where
  | opSubmit (avail : Bool) (now : Nat) (sub : EmailSubmission)
  | opList (now ttl : Nat)
  | opGet (now ttl i : Nat)
deriving Repr

/-- The state after one operation (a failed submit or lookup leaves the
state as it was). -/
def applyOp (eng : ClassificationEngine) (rep : String → ℚ)
    (sys : SysState) : SysOp → SysState
  | .opSubmit avail now sub =>
    match submit eng rep avail now sub sys with
    | .ok p => p.2
    | .error _ => sys
  | .opList now ttl => (listReports now ttl sys).2
  | .opGet now ttl i =>
    match getReport now ttl i sys with
    | .ok p => p.2
    | .error _ => sys

/-- The state after a sequence of operations. -/
def applyOps (eng : ClassificationEngine) (rep : String → ℚ)
    (sys : SysState) : List SysOp → SysState
  | [] => sys
  | op :: ops => applyOps eng rep (applyOp eng rep sys op) ops


/-- The list-cache coherence invariant: whenever the fixed list key has an
entry, that entry holds exactly the current store contents, most recent
first.  Every reachable state of the modelled backend satisfies it, because
every write invalidates the list key before returning. -/
def listCacheCoherent (sys : SysState) : Prop :=
  ∀ e, cacheLookup listKey sys.cache = some e →
    e.value = CacheVal.listVal sys.store.reverse

/-! ### Theorems -/

/-- One argument passes `validatePredictionInput`'s check exactly when it is a
string whose trim is non-empty (missing values, non-strings and
whitespace-only strings all fail). -/
theorem argCheckFails_eq_false_iff (a : JsArg) :
    argCheckFails a = false ↔ ∃ s, a = JsArg.str s ∧ jsTrim s ≠ "" := by
  cases a with
  | str s =>
    simp [argCheckFails, jsFalsy, jsIsString, jsTrimFalsy]
    intro h hs
    rw [hs] at h
    exact h (by decide)
  | nonStr t =>
    simp [argCheckFails, jsFalsy, jsIsString, jsTrimFalsy]

/-- C8: `predictEmail(subject, body, files)` throws a validation error (and
sends no HTTP request) exactly when subject or body is missing, not a string,
or whitespace-only; otherwise it posts form data holding `subject.trim()`,
`body.trim()` and, in order, exactly the elements of `files` that are `File`
instances — non-`File` elements are silently omitted. -/
theorem predictEmail_validates_then_builds_form :
    ∀ (subject body : JsArg) (files : List FileArg),
      ((argCheckFails subject = true ∨ argCheckFails body = true) →
        ∃ msg, predictEmail subject body files = Except.error msg) ∧
      (argCheckFails subject = true ↔ ¬∃ s, subject = JsArg.str s ∧ jsTrim s ≠ "") ∧
      (∀ s b, subject = JsArg.str s → body = JsArg.str b →
        jsTrim s ≠ "" → jsTrim b ≠ "" →
        predictEmail subject body files =
          .ok ([.field "subject" (jsTrim s), .field "body" (jsTrim b)] ++
            files.filterMap keepFile)) := by
  intro subject body files
  refine ⟨?_, ?_, ?_⟩
  · intro h
    by_cases hs : argCheckFails subject = true
    · exact ⟨"Validation Error: Subject is required and must be a string.",
        by simp [predictEmail, validatePredictionInput, hs, Bind.bind, Except.bind]⟩
    · have hb : argCheckFails body = true := by tauto
      have hs' : argCheckFails subject = false := by
        cases hh : argCheckFails subject
        · rfl
        · exact absurd hh hs
      exact ⟨"Validation Error: Body content is required.",
        by simp [predictEmail, validatePredictionInput, hs', hb, Bind.bind, Except.bind]⟩
  · rw [← argCheckFails_eq_false_iff]
    cases argCheckFails subject <;> simp
  · intro s b hs hb hts htb
    subst hs; subst hb
    have h1 : argCheckFails (.str s) = false :=
      (argCheckFails_eq_false_iff _).2 ⟨s, rfl, hts⟩
    have h2 : argCheckFails (.str b) = false :=
      (argCheckFails_eq_false_iff _).2 ⟨b, rfl, htb⟩
    simp [predictEmail, validatePredictionInput, h1, h2, Bind.bind, Except.bind]

/-- C8 witness: a concrete valid call, with one real `File` and one
non-`File` element, yields exactly the trimmed fields plus the single kept
file part. -/
theorem predictEmail_validates_witness :
    predictEmail (.str " hi ") (.str "x") [.file "a.txt" [1, 2], .notFile] =
      .ok [.field "subject" "hi", .field "body" "x",
        .filePart "files" "a.txt" [1, 2]] := by
  have h := (predictEmail_validates_then_builds_form (.str " hi ") (.str "x")
    [.file "a.txt" [1, 2], .notFile]).2.2 " hi " "x" rfl rfl (by decide) (by decide)
  exact h.trans (congrArg Except.ok (by decide))

/-- C9: the reports-page normalization maps a plain array to
`{total: length, reports: array}`; an object with a `reports` array keeps a
present non-zero `total` and otherwise substitutes `reports.length` (in
particular `total = 0` is replaced); every other shape raises
`"Unexpected API response format"`. -/
theorem normalizeReports_shapes :
    (∀ rs : List FReport, normalizeReports (.arr rs) = .ok ⟨(rs.length : Int), rs⟩) ∧
    (∀ (rs : List FReport) (t : Int),
      normalizeReports (.obj (some (.rfArr rs)) (some t)) =
        .ok ⟨if t = 0 then (rs.length : Int) else t, rs⟩) ∧
    (∀ rs : List FReport,
      normalizeReports (.obj (some (.rfArr rs)) none) = .ok ⟨(rs.length : Int), rs⟩) ∧
    (∀ tot : Option Int,
      normalizeReports (.obj none tot) = .error "Unexpected API response format") ∧
    (∀ (b : Bool) (tot : Option Int),
      normalizeReports (.obj (some (.rfOther b)) tot) =
        .error "Unexpected API response format") := by
  refine ⟨fun rs => rfl, fun rs t => rfl, fun rs => rfl, fun tot => rfl,
    fun b tot => ?_⟩
  cases b <;> rfl
/-- Counting over the five concrete buckets with the range test
`min ≤ p && p < max`: exactly one bucket matches when `p ∈ [1/2, 1)`, none
otherwise. -/
theorem bucketCount_eq (p : ℚ) :
    chartBuckets.countP (fun b => decide (b.bmin ≤ p) && decide (p < b.bmax)) =
      if 1/2 ≤ p ∧ p < 1 then 1 else 0 := by
  simp only [chartBuckets, List.countP_cons, List.countP_nil, Bool.and_eq_true,
    decide_eq_true_eq]
  rcases lt_or_le p (1/2) with h0 | h0
  · have n1 : ¬(((1/2):ℚ) ≤ p ∧ p < 3/5) := by rintro ⟨a, b⟩; linarith
    have n2 : ¬(((3/5):ℚ) ≤ p ∧ p < 7/10) := by rintro ⟨a, b⟩; linarith
    have n3 : ¬(((7/10):ℚ) ≤ p ∧ p < 4/5) := by rintro ⟨a, b⟩; linarith
    have n4 : ¬(((4/5):ℚ) ≤ p ∧ p < 9/10) := by rintro ⟨a, b⟩; linarith
    have n5 : ¬(((9/10):ℚ) ≤ p ∧ p < 1) := by rintro ⟨a, b⟩; linarith
    have nr : ¬(((1/2):ℚ) ≤ p ∧ p < 1) := by rintro ⟨a, b⟩; linarith
    rw [if_neg n1, if_neg n2, if_neg n3, if_neg n4, if_neg n5, if_neg nr]
  rcases lt_or_le p (3/5) with h1 | h1
  · have c1 : (((1/2):ℚ) ≤ p ∧ p < 3/5) := ⟨by linarith, by linarith⟩
    have n2 : ¬(((3/5):ℚ) ≤ p ∧ p < 7/10) := by rintro ⟨a, b⟩; linarith
    have n3 : ¬(((7/10):ℚ) ≤ p ∧ p < 4/5) := by rintro ⟨a, b⟩; linarith
    have n4 : ¬(((4/5):ℚ) ≤ p ∧ p < 9/10) := by rintro ⟨a, b⟩; linarith
    have n5 : ¬(((9/10):ℚ) ≤ p ∧ p < 1) := by rintro ⟨a, b⟩; linarith
    have cr : (((1/2):ℚ) ≤ p ∧ p < 1) := ⟨by linarith, by linarith⟩
    rw [if_pos c1, if_neg n2, if_neg n3, if_neg n4, if_neg n5, if_pos cr]
  rcases lt_or_le p (7/10) with h2 | h2
  · have n1 : ¬(((1/2):ℚ) ≤ p ∧ p < 3/5) := by rintro ⟨a, b⟩; linarith
    have c2 : (((3/5):ℚ) ≤ p ∧ p < 7/10) := ⟨by linarith, by linarith⟩
    have n3 : ¬(((7/10):ℚ) ≤ p ∧ p < 4/5) := by rintro ⟨a, b⟩; linarith
    have n4 : ¬(((4/5):ℚ) ≤ p ∧ p < 9/10) := by rintro ⟨a, b⟩; linarith
    have n5 : ¬(((9/10):ℚ) ≤ p ∧ p < 1) := by rintro ⟨a, b⟩; linarith
    have cr : (((1/2):ℚ) ≤ p ∧ p < 1) := ⟨by linarith, by linarith⟩
    rw [if_neg n1, if_pos c2, if_neg n3, if_neg n4, if_neg n5, if_pos cr]
  rcases lt_or_le p (4/5) with h3 | h3
  · have n1 : ¬(((1/2):ℚ) ≤ p ∧ p < 3/5) := by rintro ⟨a, b⟩; linarith
    have n2 : ¬(((3/5):ℚ) ≤ p ∧ p < 7/10) := by rintro ⟨a, b⟩; linarith
    have c3 : (((7/10):ℚ) ≤ p ∧ p < 4/5) := ⟨by linarith, by linarith⟩
    have n4 : ¬(((4/5):ℚ) ≤ p ∧ p < 9/10) := by rintro ⟨a, b⟩; linarith
    have n5 : ¬(((9/10):ℚ) ≤ p ∧ p < 1) := by rintro ⟨a, b⟩; linarith
    have cr : (((1/2):ℚ) ≤ p ∧ p < 1) := ⟨by linarith, by linarith⟩
    rw [if_neg n1, if_neg n2, if_pos c3, if_neg n4, if_neg n5, if_pos cr]
  rcases lt_or_le p (9/10) with h4 | h4
  · have n1 : ¬(((1/2):ℚ) ≤ p ∧ p < 3/5) := by rintro ⟨a, b⟩; linarith
    have n2 : ¬(((3/5):ℚ) ≤ p ∧ p < 7/10) := by rintro ⟨a, b⟩; linarith
    have n3 : ¬(((7/10):ℚ) ≤ p ∧ p < 4/5) := by rintro ⟨a, b⟩; linarith
    have c4 : (((4/5):ℚ) ≤ p ∧ p < 9/10) := ⟨by linarith, by linarith⟩
    have n5 : ¬(((9/10):ℚ) ≤ p ∧ p < 1) := by rintro ⟨a, b⟩; linarith
    have cr : (((1/2):ℚ) ≤ p ∧ p < 1) := ⟨by linarith, by linarith⟩
    rw [if_neg n1, if_neg n2, if_neg n3, if_pos c4, if_neg n5, if_pos cr]
  rcases lt_or_le p (1) with h5 | h5
  · have n1 : ¬(((1/2):ℚ) ≤ p ∧ p < 3/5) := by rintro ⟨a, b⟩; linarith
    have n2 : ¬(((3/5):ℚ) ≤ p ∧ p < 7/10) := by rintro ⟨a, b⟩; linarith
    have n3 : ¬(((7/10):ℚ) ≤ p ∧ p < 4/5) := by rintro ⟨a, b⟩; linarith
    have n4 : ¬(((4/5):ℚ) ≤ p ∧ p < 9/10) := by rintro ⟨a, b⟩; linarith
    have c5 : (((9/10):ℚ) ≤ p ∧ p < 1) := ⟨by linarith, by linarith⟩
    have cr : (((1/2):ℚ) ≤ p ∧ p < 1) := ⟨by linarith, by linarith⟩
    rw [if_neg n1, if_neg n2, if_neg n3, if_neg n4, if_pos c5, if_pos cr]
  · have n1 : ¬(((1/2):ℚ) ≤ p ∧ p < 3/5) := by rintro ⟨a, b⟩; linarith
    have n2 : ¬(((3/5):ℚ) ≤ p ∧ p < 7/10) := by rintro ⟨a, b⟩; linarith
    have n3 : ¬(((7/10):ℚ) ≤ p ∧ p < 4/5) := by rintro ⟨a, b⟩; linarith
    have n4 : ¬(((4/5):ℚ) ≤ p ∧ p < 9/10) := by rintro ⟨a, b⟩; linarith
    have n5 : ¬(((9/10):ℚ) ≤ p ∧ p < 1) := by rintro ⟨a, b⟩; linarith
    have nr : ¬(((1/2):ℚ) ≤ p ∧ p < 1) := by rintro ⟨a, b⟩; linarith
    rw [if_neg n1, if_neg n2, if_neg n3, if_neg n4, if_neg n5, if_neg nr]

/-- For a report whose prediction is `"spam"` or `"ham"`, passing one of the
two series filters of a bucket reduces to the winning-confidence range test. -/
theorem countedIn_eq_range (r : FReport)
    (hp : r.prediction = "spam" ∨ r.prediction = "ham") (b : Bucket) :
    countedIn r b = (decide (b.bmin ≤ winConf r) && decide (winConf r < b.bmax)) := by
  rcases hp with h | h <;>
    simp [countedIn, spamInBucket, hamInBucket, h]

/-- C10: in `ConfidenceDistributionChart`, a report is counted in exactly one
of the five buckets iff its winning-class probability `p = winConf r`
satisfies `0.5 ≤ p < 1.0`; with `p < 0.5` or `p = 1.0` it is counted in no
bucket. -/
theorem chart_buckets_partition (r : FReport)
    (hp : r.prediction = "spam" ∨ r.prediction = "ham") :
    (chartBuckets.countP (fun b => countedIn r b) = 1 ↔
      (1/2 ≤ winConf r ∧ winConf r < 1)) ∧
    ((winConf r < 1/2 ∨ winConf r = 1) →
      chartBuckets.countP (fun b => countedIn r b) = 0) := by
  have he : chartBuckets.countP (fun b => countedIn r b) =
      chartBuckets.countP
        (fun b => decide (b.bmin ≤ winConf r) && decide (winConf r < b.bmax)) :=
    List.countP_congr (fun b _ => by rw [countedIn_eq_range r hp b])
  rw [he, bucketCount_eq]
  constructor
  · by_cases h : (1/2 ≤ winConf r ∧ winConf r < 1) <;> simp [h]
  · intro h
    have hn : ¬((1:ℚ)/2 ≤ winConf r ∧ winConf r < 1) := by
      rcases h with h | h
      · rintro ⟨a, _⟩; linarith
      · rintro ⟨_, b⟩; rw [h] at b; exact lt_irrefl _ b
    rw [if_neg hn]

/-- C10 witness: a concrete spam report with winning probability `0.95` is
counted in exactly one bucket. -/
theorem chart_buckets_partition_witness :
    chartBuckets.countP
      (fun b => countedIn ⟨"1", "s", "b", "spam", 19/20, 19/20, 1/20, "t", []⟩ b) = 1 := by
  have h := (chart_buckets_partition
    ⟨"1", "s", "b", "spam", 19/20, 19/20, 1/20, "t", []⟩ (Or.inl rfl)).1
  exact h.2 ⟨by norm_num [winConf], by norm_num [winConf]⟩
/-- After invalidation/removal, a key has no entry. -/
theorem cacheLookup_remove {α : Type} (k : String) (c : CacheMap α) :
    cacheLookup k (cacheRemove k c) = none := by
  induction c with
  | nil => rfl
  | cons p t ih =>
    by_cases h : p.1 = k
    · simpa [cacheRemove, List.filter, h] using ih
    · simpa [cacheRemove, cacheLookup, List.filter, List.find?, h] using ih

/-- `set` installs the entry with the absolute expiry `now + ttl`. -/
theorem cacheLookup_set {α : Type} (k : String) (v : α) (ttl now : Nat)
    (c : CacheMap α) :
    cacheLookup k (cacheSet k v ttl now c) = some ⟨v, now + ttl⟩ := by
  simp [cacheSet, cacheLookup, List.find?]

/-- C4: after `set(k, v, ttl)` at `now`, `get(k)` returns `v` (leaving the
map untouched) at every instant strictly before `now + ttl`; once the TTL has
elapsed, `get(k)` returns a Miss and lazily removes the expired entry, so a
raw lookup afterwards finds nothing. -/
theorem cache_set_get_ttl (α : Type) (k : String) (v : α) (ttl now now' : Nat)
    (c : CacheMap α) :
    (now' < now + ttl →
      cacheGet now' k (cacheSet k v ttl now c) = (some v, cacheSet k v ttl now c)) ∧
    (now + ttl ≤ now' →
      cacheGet now' k (cacheSet k v ttl now c) =
        (none, cacheRemove k (cacheSet k v ttl now c)) ∧
      cacheLookup k (cacheGet now' k (cacheSet k v ttl now c)).2 = none) := by
  constructor
  · intro h
    have hn : ¬((⟨v, now + ttl⟩ : CacheEntry α).expires_at ≤ now') := by
      simpa using by omega
    simp [cacheGet, cacheLookup_set, hn]
  · intro h
    have hy : (⟨v, now + ttl⟩ : CacheEntry α).expires_at ≤ now' := by simpa using h
    constructor
    · simp [cacheGet, cacheLookup_set, hy]
    · simp [cacheGet, cacheLookup_set, hy, cacheLookup_remove]

/-- C4 witness: with `ttl = 1` set at instant 0, a get at 0 hits with the
value and a get at 1 misses and evicts. -/
theorem cache_set_get_ttl_witness :
    cacheGet 0 "k" (cacheSet "k" 7 1 0 ([] : CacheMap Nat)) =
      (some 7, cacheSet "k" 7 1 0 []) ∧
    cacheGet 1 "k" (cacheSet "k" 7 1 0 ([] : CacheMap Nat)) =
      (none, cacheRemove "k" (cacheSet "k" 7 1 0 [])) :=
  ⟨(cache_set_get_ttl Nat "k" 7 1 0 0 []).1 (by decide),
   ((cache_set_get_ttl Nat "k" 7 1 0 1 []).2 (by decide)).1⟩
/-- Running the limiter over calls that all fall inside the counter's current
window: each call increments the count by one (never resetting), the `i`-th
call is Rejected exactly when the incremented count exceeds `max_requests`,
and the window start is unchanged. -/
theorem rateLimitRun_in_window (cfg : RLConfig) (t0 : Nat) :
    ∀ (ts : List Nat) (k : Nat),
      (∀ u ∈ ts, t0 ≤ u ∧ u - t0 < cfg.window_duration) →
      rateLimitRun cfg ts (some ⟨k, t0⟩) =
        ((List.range ts.length).map
          (fun i => if cfg.max_requests < k + i + 1 then RLDecision.Rejected
            else .Allowed),
         some ⟨k + ts.length, t0⟩) := by
  intro ts
  induction ts with
  | nil => intro k h; simp [rateLimitRun]
  | cons u ts ih =>
    intro k h
    have hu := h u (by simp)
    have hw : ¬(cfg.window_duration ≤ u - t0) := by omega
    have hrec := ih (k + 1) (fun x hx => h x (by simp [hx]))
    simp only [rateLimitRun, rateLimitStep, if_neg hw, hrec]
    rw [Prod.mk.injEq]
    constructor
    · rw [List.length_cons, List.range_succ_eq_map, List.map_cons, List.map_map]
      congr 1
      apply List.map_congr_left
      intro i _
      simp only [Function.comp_apply, Nat.succ_eq_add_one]
      rw [show k + (i + 1) + 1 = k + 1 + i + 1 from by omega]
    · rw [List.length_cons,
        show k + 1 + ts.length = k + (ts.length + 1) from by omega]

/-- C2: starting from no counter, with calls all inside the window opened by
the first call, the `j`-th call (0-indexed) is Allowed exactly while
`j + 1 ≤ max_requests` — so the first N calls are Allowed and the (N+1)-th is
Rejected; a call at or after `window_start + window_duration` resets the
counter to count 1 and is Allowed; and within a window the count never
decreases. -/
theorem rate_limiter_fixed_window :
    (∀ (cfg : RLConfig) (t0 : Nat) (ts : List Nat),
      (∀ u ∈ ts, t0 ≤ u ∧ u - t0 < cfg.window_duration) →
      0 < cfg.max_requests →
      (rateLimitRun cfg (t0 :: ts) none).1 =
        (List.range (ts.length + 1)).map
          (fun j => if cfg.max_requests < j + 1 then RLDecision.Rejected
            else .Allowed)) ∧
    (∀ (cfg : RLConfig) (now : Nat) (c : RateLimitCounter),
      c.window_start + cfg.window_duration ≤ now →
      rateLimitStep cfg now (some c) = (.Allowed, ⟨1, now⟩)) ∧
    (∀ (cfg : RLConfig) (now : Nat) (c : RateLimitCounter),
      now - c.window_start < cfg.window_duration →
      c.count ≤ (rateLimitStep cfg now (some c)).2.count) := by
  refine ⟨?_, ?_, ?_⟩
  · intro cfg t0 ts hts hpos
    have hrun := rateLimitRun_in_window cfg t0 ts 1 hts
    simp only [rateLimitRun, rateLimitStep, hrun]
    rw [List.range_succ_eq_map, List.map_cons, List.map_map]
    congr 1
    · rw [if_neg (by omega)]
    · apply List.map_congr_left
      intro i _
      simp only [Function.comp_apply, Nat.succ_eq_add_one]
      rw [show 1 + i + 1 = i + 1 + 1 from by omega]
  · intro cfg now c h
    have : cfg.window_duration ≤ now - c.window_start := by omega
    simp [rateLimitStep, this]
  · intro cfg now c h
    have hw : ¬(cfg.window_duration ≤ now - c.window_start) := by omega
    simp [rateLimitStep, hw]

/-- C2 witness: with `max_requests = 3`, `window = 60`, calls at instants
0, 10, 20, 30 give Allowed, Allowed, Allowed, Rejected, and a call at
instant 60 resets and is Allowed. -/
theorem rate_limiter_fixed_window_witness :
    (rateLimitRun ⟨3, 60⟩ [0, 10, 20, 30] none).1 =
      [RLDecision.Allowed, .Allowed, .Allowed, .Rejected] ∧
    rateLimitStep ⟨3, 60⟩ 60 (some ⟨4, 0⟩) = (.Allowed, ⟨1, 60⟩) := by
  constructor
  · have h := rate_limiter_fixed_window.1 ⟨3, 60⟩ 0 [10, 20, 30]
      (by decide) (by decide)
    exact h.trans (by decide)
  · exact rate_limiter_fixed_window.2.1 ⟨3, 60⟩ 60 ⟨4, 0⟩ (by decide)
/-- The probability pair of `classify` sums to 1 exactly, the label is the
argmax with ties to spam, and the confidence is the winning probability. -/
theorem classify_props (eng : ClassificationEngine) (s b : String) :
    |(classify eng s b).spam_probability + (classify eng s b).ham_probability - 1|
        ≤ 1 / 1000000 ∧
    ((classify eng s b).label = "spam" ↔ 1 / 2 ≤ (classify eng s b).spam_probability) ∧
    ((classify eng s b).label = "ham" ↔ (classify eng s b).spam_probability < 1 / 2) ∧
    ((classify eng s b).label = "spam" ↔
      (classify eng s b).ham_probability ≤ (classify eng s b).spam_probability) ∧
    (classify eng s b).confidence =
      max (classify eng s b).spam_probability (classify eng s b).ham_probability := by
  by_cases h : (1 : ℚ) / 2 ≤ eng.spamProb s b
  · refine ⟨?_, ?_, ?_, ?_, ?_⟩
    · simp only [classify]
      rw [show eng.spamProb s b + (1 - eng.spamProb s b) - 1 = 0 from by ring]
      norm_num
    · simp only [classify, if_pos h]
      exact iff_of_true trivial h
    · simp only [classify, if_pos h]
      exact iff_of_false (by decide) (not_lt.2 h)
    · simp only [classify, if_pos h]
      exact iff_of_true trivial (by linarith)
    · simp only [classify, if_pos h]
  · refine ⟨?_, ?_, ?_, ?_, ?_⟩
    · simp only [classify]
      rw [show eng.spamProb s b + (1 - eng.spamProb s b) - 1 = 0 from by ring]
      norm_num
    · simp only [classify, if_neg h]
      exact iff_of_false (by decide) h
    · simp only [classify, if_neg h]
      exact iff_of_true trivial (not_le.1 h)
    · simp only [classify, if_neg h]
      refine iff_of_false (by decide) ?_
      have := not_le.1 h
      intro hc
      linarith
    · simp only [classify, if_neg h]

/-- Inversion of a successful `submit`: persistence was available, validation
passed, the returned record carries exactly the classifier's outputs with the
store-assigned id and the call's timestamp, and the new state appends the
record and invalidates the list cache. -/
theorem submit_ok_inv (eng : ClassificationEngine) (rep : String → ℚ)
    (avail : Bool) (now : Nat) (sub : EmailSubmission) (sys : SysState)
    (r : PredictionRecord) (sys' : SysState)
    (h : submit eng rep avail now sub sys = .ok (r, sys')) :
    avail = true ∧ sub.subject ≠ "" ∧ sub.body ≠ "" ∧
    r = ⟨sys.store.length, sub.subject, sub.body,
      (classify eng sub.subject sub.body).label,
      (classify eng sub.subject sub.body).confidence,
      (classify eng sub.subject sub.body).spam_probability,
      (classify eng sub.subject sub.body).ham_probability, now,
      sub.attachments.map fun a => analyze rep a.filename a.content_type a.bytes⟩ ∧
    sys' = ⟨sys.store ++ [r], cacheRemove listKey sys.cache⟩ := by
  by_cases hv : (sub.subject = "" ∨ sub.body = "")
  · simp [submit, hv] at h
  · cases avail with
    | false => simp [submit, hv] at h
    | true =>
      simp [submit, hv] at h
      obtain ⟨hr, hs⟩ := h
      exact ⟨rfl, fun hsub => hv (Or.inl hsub), fun hb => hv (Or.inr hb),
        hr.symm, by rw [← hs, hr]⟩

/-- C1: for every classification — both as returned by `classify` and as
recorded in the `PredictionRecord` of any successful `submit` —
`spam_probability + ham_probability` is within `1e-6` of 1 (here: exactly 1),
the prediction is `"spam"` iff `spam_probability ≥ 0.5` (the argmax label,
ties to spam) and `"ham"` otherwise, and the confidence equals
`max spam_probability ham_probability`. -/
theorem classification_probabilities_argmax :
    (∀ (eng : ClassificationEngine) (s b : String),
      |(classify eng s b).spam_probability + (classify eng s b).ham_probability - 1|
          ≤ 1 / 1000000 ∧
      ((classify eng s b).label = "spam" ↔
        1 / 2 ≤ (classify eng s b).spam_probability) ∧
      ((classify eng s b).label = "ham" ↔
        (classify eng s b).spam_probability < 1 / 2) ∧
      ((classify eng s b).label = "spam" ↔
        (classify eng s b).ham_probability ≤ (classify eng s b).spam_probability) ∧
      (classify eng s b).confidence =
        max (classify eng s b).spam_probability (classify eng s b).ham_probability) ∧
    (∀ (eng : ClassificationEngine) (rep : String → ℚ) (avail : Bool) (now : Nat)
      (sub : EmailSubmission) (sys : SysState) (r : PredictionRecord) (sys' : SysState),
      submit eng rep avail now sub sys = .ok (r, sys') →
      |r.spam_probability + r.ham_probability - 1| ≤ 1 / 1000000 ∧
      (r.prediction = "spam" ↔ 1 / 2 ≤ r.spam_probability) ∧
      (r.prediction = "ham" ↔ r.spam_probability < 1 / 2) ∧
      (r.prediction = "spam" ↔ r.ham_probability ≤ r.spam_probability) ∧
      r.confidence = max r.spam_probability r.ham_probability) := by
  refine ⟨fun eng s b => classify_props eng s b, ?_⟩
  intro eng rep avail now sub sys r sys' h
  obtain ⟨-, -, -, hr, -⟩ := submit_ok_inv eng rep avail now sub sys r sys' h
  subst hr
  exact classify_props eng sub.subject sub.body

/-- C1 witness: a concrete successful submission with spam probability
`7/10` yields a record satisfying the sum and argmax properties. -/
theorem classification_probabilities_argmax_witness :
    |(⟨0, "s", "b", "spam", 7/10, 7/10, 3/10, 5, []⟩ : PredictionRecord).spam_probability
        + (⟨0, "s", "b", "spam", 7/10, 7/10, 3/10, 5, []⟩ : PredictionRecord).ham_probability
        - 1| ≤ 1 / 1000000 ∧
    ((⟨0, "s", "b", "spam", 7/10, 7/10, 3/10, 5, []⟩ : PredictionRecord).prediction = "spam"
      ↔ 1 / 2 ≤ (⟨0, "s", "b", "spam", 7/10, 7/10, 3/10, 5, []⟩ : PredictionRecord).spam_probability) := by
  have h := classification_probabilities_argmax.2 ⟨fun _ _ => 7/10⟩ (fun _ => 0) true 5
    ⟨"s", "b", []⟩ ⟨[], []⟩ ⟨0, "s", "b", "spam", 7/10, 7/10, 3/10, 5, []⟩
    ⟨[⟨0, "s", "b", "spam", 7/10, 7/10, 3/10, 5, []⟩], []⟩ (by
      have hv : ¬(("s" : String) = "" ∨ ("b" : String) = "") := by decide
      norm_num [submit, classify, analyze, cacheRemove, listKey, hv])
  exact ⟨h.1, h.2.1⟩
/-- Each digest word prints as exactly 8 hex characters. -/
theorem word8hex_length (x : Nat) : (word8hex x).length = 8 := by
  simp [word8hex, String.length]

/-- The hex digest is always exactly 64 characters (spec §3 invariant). -/
theorem sha256hex_length (bytes : List Nat) : (sha256hex bytes).length = 64 := by
  simp [sha256hex, sha256words, String.join, String.length_append, word8hex_length]

/-- C5: the sha256 field of `analyze` is a function purely of the byte
content — any two attachments with identical bytes get identical digests
regardless of filename and declared content type (two-run noninterference) —
it always equals the 64-character hex SHA-256 of the bytes, the size is the
byte length, and a one-byte change produces a different digest on the
concrete pair `"abc"`/`"abd"`. -/
theorem analyze_sha256_content_addressed :
    (∀ (rep : String → ℚ) (f1 c1 f2 c2 : String) (bytes : List Nat),
      (analyze rep f1 c1 bytes).sha256 = (analyze rep f2 c2 bytes).sha256 ∧
      (analyze rep f1 c1 bytes).sha256 = sha256hex bytes ∧
      (analyze rep f1 c1 bytes).size = bytes.length ∧
      ((analyze rep f1 c1 bytes).sha256).length = 64) ∧
    sha256hex [97, 98, 99] ≠ sha256hex [97, 98, 100] := by
  refine ⟨fun rep f1 c1 f2 c2 bytes => ⟨rfl, rfl, rfl, sha256hex_length bytes⟩, ?_⟩
  decide
/-- C6: a submission with empty subject or body makes `submit` fail with
`ValidationError`, surfaced as status 422 (a 4xx), and the failed operation
leaves store and caches unchanged; `submit` returns a record only when both
subject and body are non-empty, and with persistence available every
non-empty submission succeeds. -/
theorem submit_rejects_empty_subject_body :
    (∀ (eng : ClassificationEngine) (rep : String → ℚ) (avail : Bool) (now : Nat)
      (sub : EmailSubmission) (sys : SysState),
      (sub.subject = "" ∨ sub.body = "") →
      submit eng rep avail now sub sys = .error .ValidationError) ∧
    (statusOf .ValidationError = 422 ∧ 400 ≤ statusOf .ValidationError ∧
      statusOf .ValidationError < 500) ∧
    (∀ (eng : ClassificationEngine) (rep : String → ℚ) (avail : Bool) (now : Nat)
      (sub : EmailSubmission) (sys : SysState),
      (sub.subject = "" ∨ sub.body = "") →
      applyOp eng rep sys (.opSubmit avail now sub) = sys) ∧
    (∀ (eng : ClassificationEngine) (rep : String → ℚ) (avail : Bool) (now : Nat)
      (sub : EmailSubmission) (sys : SysState) (r : PredictionRecord) (sys' : SysState),
      submit eng rep avail now sub sys = .ok (r, sys') →
      sub.subject ≠ "" ∧ sub.body ≠ "") ∧
    (∀ (eng : ClassificationEngine) (rep : String → ℚ) (now : Nat)
      (sub : EmailSubmission) (sys : SysState),
      sub.subject ≠ "" → sub.body ≠ "" →
      ∃ r sys', submit eng rep true now sub sys = .ok (r, sys')) := by
  refine ⟨?_, by norm_num [statusOf], ?_, ?_, ?_⟩
  · intro eng rep avail now sub sys h
    simp [submit, h]
  · intro eng rep avail now sub sys h
    simp [applyOp, submit, h]
  · intro eng rep avail now sub sys r sys' h
    obtain ⟨-, hs, hb, -, -⟩ := submit_ok_inv eng rep avail now sub sys r sys' h
    exact ⟨hs, hb⟩
  · intro eng rep now sub sys hs hb
    have hv : ¬(sub.subject = "" ∨ sub.body = "") := by tauto
    refine ⟨⟨sys.store.length, sub.subject, sub.body,
      (classify eng sub.subject sub.body).label,
      (classify eng sub.subject sub.body).confidence,
      (classify eng sub.subject sub.body).spam_probability,
      (classify eng sub.subject sub.body).ham_probability, now,
      sub.attachments.map fun a => analyze rep a.filename a.content_type a.bytes⟩,
      ⟨sys.store ++ [⟨sys.store.length, sub.subject, sub.body,
        (classify eng sub.subject sub.body).label,
        (classify eng sub.subject sub.body).confidence,
        (classify eng sub.subject sub.body).spam_probability,
        (classify eng sub.subject sub.body).ham_probability, now,
        sub.attachments.map fun a => analyze rep a.filename a.content_type a.bytes⟩],
        cacheRemove listKey sys.cache⟩, ?_⟩
    simp [submit, hv]

/-- C6 witness: a concrete empty-subject submission is rejected with
`ValidationError` and leaves the empty system state untouched. -/
theorem submit_rejects_empty_subject_body_witness :
    submit ⟨fun _ _ => 7/10⟩ (fun _ => 0) true 5 ⟨"", "x", []⟩ ⟨[], []⟩ =
      .error .ValidationError ∧
    applyOp ⟨fun _ _ => 7/10⟩ (fun _ => 0) ⟨[], []⟩ (.opSubmit true 5 ⟨"", "x", []⟩) =
      ⟨[], []⟩ :=
  ⟨submit_rejects_empty_subject_body.1 ⟨fun _ _ => 7/10⟩ (fun _ => 0) true 5
      ⟨"", "x", []⟩ ⟨[], []⟩ (Or.inl rfl),
   submit_rejects_empty_subject_body.2.2.1 ⟨fun _ _ => 7/10⟩ (fun _ => 0) true 5
      ⟨"", "x", []⟩ ⟨[], []⟩ (Or.inl rfl)⟩

/-- C7: when the persistence step cannot run, a validated `/predict` call
fails with `PersistenceUnavailable` (surfaced as 503) and the caller never
receives a classification verdict; conversely, whenever a verdict record is
returned it is present in the durable store. -/
theorem persistence_unavailable_no_verdict :
    (∀ (eng : ClassificationEngine) (rep : String → ℚ) (now : Nat)
      (sub : EmailSubmission) (sys : SysState),
      sub.subject ≠ "" → sub.body ≠ "" →
      submit eng rep false now sub sys = .error .PersistenceUnavailable) ∧
    statusOf .PersistenceUnavailable = 503 ∧
    (∀ (eng : ClassificationEngine) (rep : String → ℚ) (avail : Bool) (now : Nat)
      (sub : EmailSubmission) (sys : SysState) (r : PredictionRecord) (sys' : SysState),
      submit eng rep avail now sub sys = .ok (r, sys') → r ∈ sys'.store) := by
  refine ⟨?_, rfl, ?_⟩
  · intro eng rep now sub sys hs hb
    have hv : ¬(sub.subject = "" ∨ sub.body = "") := by tauto
    simp [submit, hv]
  · intro eng rep avail now sub sys r sys' h
    obtain ⟨-, -, -, -, hsys⟩ := submit_ok_inv eng rep avail now sub sys r sys' h
    rw [hsys]
    simp

/-- C7 witness: a concrete valid submission with persistence unavailable
yields the `PersistenceUnavailable` error. -/
theorem persistence_unavailable_no_verdict_witness :
    submit ⟨fun _ _ => 7/10⟩ (fun _ => 0) false 5 ⟨"s", "b", []⟩ ⟨[], []⟩ =
      .error .PersistenceUnavailable :=
  persistence_unavailable_no_verdict.1 ⟨fun _ _ => 7/10⟩ (fun _ => 0) 5
    ⟨"s", "b", []⟩ ⟨[], []⟩ (by decide) (by decide)
/-- Lookup steps through a cons cell by key comparison. -/
theorem cacheLookup_cons {α : Type} (a : String) (e : CacheEntry α)
    (t : CacheMap α) (k : String) :
    cacheLookup k ((a, e) :: t) = if a = k then some e else cacheLookup k t := by
  by_cases h : a = k
  · simp [cacheLookup, List.find?, h]
  · simp [cacheLookup, List.find?, h]

/-- Removal steps through a cons cell by key comparison. -/
theorem cacheRemove_cons {α : Type} (a : String) (e : CacheEntry α)
    (t : CacheMap α) (k : String) :
    cacheRemove k ((a, e) :: t) =
      if a = k then cacheRemove k t else (a, e) :: cacheRemove k t := by
  by_cases h : a = k <;> simp [cacheRemove, List.filter_cons, h]

/-- Removing one key leaves every other key's entry in place. -/
theorem cacheLookup_remove_ne {α : Type} (k k' : String) (c : CacheMap α)
    (h : k' ≠ k) : cacheLookup k' (cacheRemove k c) = cacheLookup k' c := by
  induction c with
  | nil => rfl
  | cons p t ih =>
    obtain ⟨a, e⟩ := p
    rw [cacheRemove_cons, cacheLookup_cons]
    by_cases hp : a = k
    · rw [if_pos hp, if_neg (by rw [hp]; exact fun e => h e.symm), ih]
    · rw [if_neg hp, cacheLookup_cons]
      by_cases hq : a = k'
      · rw [if_pos hq, if_pos hq]
      · rw [if_neg hq, if_neg hq, ih]

/-- Setting one key leaves every other key's entry in place. -/
theorem cacheLookup_set_ne {α : Type} (k k' : String) (v : α) (ttl now : Nat)
    (c : CacheMap α) (h : k' ≠ k) :
    cacheLookup k' (cacheSet k v ttl now c) = cacheLookup k' c := by
  rw [cacheSet, cacheLookup_cons, if_neg (fun e => h e.symm),
    cacheLookup_remove_ne k k' c h]

/-- A cache hit comes from an unexpired stored entry and leaves the map
unchanged. -/
theorem cacheGet_some_inv {α : Type} (now : Nat) (k : String) (c : CacheMap α)
    (v : α) (c' : CacheMap α) (h : cacheGet now k c = (some v, c')) :
    (∃ exp, cacheLookup k c = some ⟨v, exp⟩) ∧ c' = c := by
  unfold cacheGet at h
  cases hl : cacheLookup k c with
  | none => rw [hl] at h; simp at h
  | some e =>
    obtain ⟨val, exp⟩ := e
    rw [hl] at h
    dsimp only at h
    by_cases he : (⟨val, exp⟩ : CacheEntry α).expires_at ≤ now
    · rw [if_pos he] at h; simp at h
    · rw [if_neg he] at h
      have h1 := congrArg Prod.fst h
      have h2 := congrArg Prod.snd h
      simp at h1 h2
      subst h1
      exact ⟨⟨exp, rfl⟩, h2.symm⟩

/-- A lookup either leaves the map unchanged or lazily removes the looked-up
key. -/
theorem cacheGet_snd {α : Type} (now : Nat) (k : String) (c : CacheMap α) :
    (cacheGet now k c).2 = c ∨ (cacheGet now k c).2 = cacheRemove k c := by
  unfold cacheGet
  cases cacheLookup k c with
  | none => exact Or.inl rfl
  | some e =>
    dsimp only
    by_cases he : e.expires_at ≤ now
    · rw [if_pos he]; exact Or.inr rfl
    · rw [if_neg he]; exact Or.inl rfl

/-- Per-identifier cache keys never collide with the fixed list key. -/
theorem idKey_ne_listKey (i : Nat) : idKey i ≠ listKey := by
  intro h
  have h' := congrArg String.data h
  simp only [idKey, listKey, String.data_append] at h'
  simp at h'
/-- Under the coherence invariant, `GET /reports` always returns the current
store contents (most recent first), and it preserves both the invariant and
the store. -/
theorem coherent_listReports (now ttl : Nat) (sys : SysState)
    (h : listCacheCoherent sys) :
    (listReports now ttl sys).1 = sys.store.reverse ∧
    listCacheCoherent (listReports now ttl sys).2 ∧
    (listReports now ttl sys).2.store = sys.store := by
  rcases hg : cacheGet now listKey sys.cache with ⟨vo, c⟩
  cases vo with
  | none =>
    simp only [listReports, hg]
    refine ⟨trivial, ?_, trivial⟩
    intro e he
    rw [cacheLookup_set] at he
    obtain rfl : e = ⟨CacheVal.listVal sys.store.reverse, now + ttl⟩ :=
      (Option.some.inj he).symm
    rfl
  | some cv =>
    cases cv with
    | listVal v =>
      obtain ⟨⟨exp, hl⟩, hc⟩ := cacheGet_some_inv now listKey sys.cache _ c hg
      have hv := h ⟨CacheVal.listVal v, exp⟩ hl
      simp at hv
      subst hv
      simp only [listReports, hg]
      subst hc
      exact ⟨trivial, h, trivial⟩
    | singleVal r =>
      obtain ⟨⟨exp, hl⟩, hc⟩ := cacheGet_some_inv now listKey sys.cache _ c hg
      have hv := h ⟨CacheVal.singleVal r, exp⟩ hl
      simp at hv

/-- A `GET /report?id=` read preserves the coherence invariant and the store:
it only touches the per-identifier key, which is distinct from the list key. -/
theorem coherent_getReport (now ttl i : Nat) (sys : SysState)
    (h : listCacheCoherent sys) :
    (∀ p, getReport now ttl i sys = .ok p →
      listCacheCoherent p.2 ∧ p.2.store = sys.store) := by
  intro p hp
  rcases hg : cacheGet now (idKey i) sys.cache with ⟨vo, c⟩
  have hc : cacheLookup listKey c = cacheLookup listKey sys.cache := by
    rcases cacheGet_snd now (idKey i) sys.cache with hs | hs
    · rw [hg] at hs
      simp only at hs
      rw [hs]
    · rw [hg] at hs
      simp only at hs
      rw [hs, cacheLookup_remove_ne _ _ _ (fun e => idKey_ne_listKey i e.symm)]
  cases vo with
  | none =>
    simp only [getReport, hg] at hp
    cases hf : sys.store.find? (fun r => r.id = i) with
    | none => rw [hf] at hp; simp at hp
    | some r =>
      rw [hf] at hp
      dsimp only at hp
      obtain rfl := (Except.ok.inj hp).symm
      refine ⟨?_, rfl⟩
      intro e he
      rw [cacheLookup_set_ne _ _ _ _ _ _ (fun e => idKey_ne_listKey i e.symm),
        hc] at he
      exact h e he
  | some cv =>
    obtain ⟨⟨exp, hl⟩, hceq⟩ := cacheGet_some_inv now (idKey i) sys.cache _ c hg
    cases cv with
    | singleVal r =>
      simp only [getReport, hg] at hp
      obtain rfl := (Except.ok.inj hp).symm
      subst hceq
      exact ⟨h, rfl⟩
    | listVal v =>
      simp only [getReport, hg] at hp
      cases hf : sys.store.find? (fun r => r.id = i) with
      | none => rw [hf] at hp; simp at hp
      | some r =>
        rw [hf] at hp
        dsimp only at hp
        obtain rfl := (Except.ok.inj hp).symm
        refine ⟨?_, rfl⟩
        intro e he
        rw [cacheLookup_set_ne _ _ _ _ _ _ (fun e => idKey_ne_listKey i e.symm),
          hc] at he
        exact h e he

/-- Every backend operation preserves the list-cache coherence invariant and
never removes records from the store. -/
theorem coherent_applyOp (eng : ClassificationEngine) (rep : String → ℚ)
    (sys : SysState) (op : SysOp) (h : listCacheCoherent sys) :
    listCacheCoherent (applyOp eng rep sys op) ∧
    ∀ r ∈ sys.store, r ∈ (applyOp eng rep sys op).store := by
  cases op with
  | opSubmit avail now sub =>
    cases hsub : submit eng rep avail now sub sys with
    | error e =>
      simp only [applyOp, hsub]
      exact ⟨h, fun r hr => hr⟩
    | ok p =>
      obtain ⟨r, sys'⟩ := p
      obtain ⟨-, -, -, -, hsys⟩ := submit_ok_inv eng rep avail now sub sys r sys' hsub
      simp only [applyOp, hsub]
      constructor
      · intro e he
        rw [hsys] at he
        simp only at he
        rw [cacheLookup_remove] at he
        exact absurd he (by simp)
      · intro x hx
        rw [hsys]
        simp only
        exact List.mem_append_left _ hx
  | opList now ttl =>
    obtain ⟨-, hcoh, hst⟩ := coherent_listReports now ttl sys h
    simp only [applyOp]
    exact ⟨hcoh, fun r hr => by rw [hst]; exact hr⟩
  | opGet now ttl i =>
    cases hgr : getReport now ttl i sys with
    | error e =>
      simp only [applyOp, hgr]
      exact ⟨h, fun r hr => hr⟩
    | ok p =>
      obtain ⟨hcoh, hst⟩ := coherent_getReport now ttl i sys h p hgr
      simp only [applyOp, hgr]
      exact ⟨hcoh, fun r hr => by rw [hst]; exact hr⟩

/-- Operation sequences preserve coherence and store membership. -/
theorem coherent_applyOps (eng : ClassificationEngine) (rep : String → ℚ) :
    ∀ (ops : List SysOp) (sys : SysState), listCacheCoherent sys →
      listCacheCoherent (applyOps eng rep sys ops) ∧
      ∀ r ∈ sys.store, r ∈ (applyOps eng rep sys ops).store := by
  intro ops
  induction ops with
  | nil => exact fun sys h => ⟨h, fun r hr => hr⟩
  | cons op ops ih =>
    intro sys h
    obtain ⟨h1, h2⟩ := coherent_applyOp eng rep sys op h
    obtain ⟨h3, h4⟩ := ih (applyOp eng rep sys op) h1
    exact ⟨h3, fun r hr => h4 r (h2 r hr)⟩

/-- C3: after any successful `submit` (insert then list-cache invalidation),
every later `GET /reports` — no matter which further submits, list reads, or
single-report reads happen in between — returns a list containing the newly
inserted record, even if the list cache had been populated before the write;
no stale cached list omitting the record is ever served. -/
theorem submit_then_list_includes_record :
    ∀ (eng : ClassificationEngine) (rep : String → ℚ) (now : Nat)
      (sub : EmailSubmission) (sys : SysState) (r : PredictionRecord)
      (sys₁ : SysState),
      submit eng rep true now sub sys = .ok (r, sys₁) →
      ∀ (ops : List SysOp) (now' ttl' : Nat),
        r ∈ (listReports now' ttl' (applyOps eng rep sys₁ ops)).1 := by
  intro eng rep now sub sys r sys₁ hs ops now' ttl'
  obtain ⟨-, -, -, -, hsys⟩ := submit_ok_inv eng rep true now sub sys r sys₁ hs
  have hc₁ : listCacheCoherent sys₁ := by
    intro e he
    rw [hsys] at he
    simp only at he
    rw [cacheLookup_remove] at he
    exact absurd he (by simp)
  have hr₁ : r ∈ sys₁.store := by
    rw [hsys]
    simp
  obtain ⟨hc₂, hmono⟩ := coherent_applyOps eng rep ops sys₁ hc₁
  have hl := (coherent_listReports now' ttl' _ hc₂).1
  rw [hl]
  simpa using hmono r hr₁

/-- C3 witness: a concrete submit against a state whose list cache was
populated before the write, followed by an interleaved list read, still
yields a `GET /reports` list containing the new record. -/
theorem submit_then_list_includes_record_witness :
    (⟨0, "s", "b", "spam", 7/10, 7/10, 3/10, 5, []⟩ : PredictionRecord) ∈
      (listReports 7 60 (applyOps ⟨fun _ _ => 7/10⟩ (fun _ => 0)
        ⟨[⟨0, "s", "b", "spam", 7/10, 7/10, 3/10, 5, []⟩],
          cacheRemove listKey [(listKey, ⟨.listVal [], 100⟩)]⟩
        [.opList 6 60])).1 :=
  submit_then_list_includes_record ⟨fun _ _ => 7/10⟩ (fun _ => 0) 5
    ⟨"s", "b", []⟩ ⟨[], [(listKey, ⟨.listVal [], 100⟩)]⟩
    ⟨0, "s", "b", "spam", 7/10, 7/10, 3/10, 5, []⟩
    ⟨[⟨0, "s", "b", "spam", 7/10, 7/10, 3/10, 5, []⟩],
      cacheRemove listKey [(listKey, ⟨.listVal [], 100⟩)]⟩
    (by
      have hv : ¬(("s" : String) = "" ∨ ("b" : String) = "") := by decide
      norm_num [submit, classify, analyze, hv])
    [.opList 6 60] 7 60
